import Mathlib

/-!
Verification of the streaming ingestion and synchronization core of the
serial plotter (`app/python_data_recoder/subplot_record.py`).

Strings from the serial link are modelled as lists of characters (`Str`),
numeric sensor values as rationals (`ℚ`).  Each definition mirrors the
Python source: `CircularBuffer` with its `push`/`get_data`, the per-line
parsing loop of `SerialPlotterWindow.receive_serial_data` (with its
try/except modelled by `Except`), the emission policy, `export_data` and
`change_buffer_size`.
-/

abbrev Str := List Char

/-- Whitespace characters stripped by Python's `str.strip()` / `float()`
(the subset occurring in the serial protocol). -/
def isSpaceCh (c : Char) : Bool :=
  c == ' ' || c == '\t' || c == '\n' || c == '\r'

/-- Python `s.strip()`: remove leading and trailing whitespace. -/
def strip (cs : Str) : Str :=
  ((cs.dropWhile isSpaceCh).reverse.dropWhile isSpaceCh).reverse

/-- Python `s.split(sep)` for a one-character separator: splits at every
occurrence, keeping empty pieces (`"".split(",") = [""]`). -/
def splitOnChar (sep : Char) : Str → List Str
  | [] => [[]]
  | c :: cs =>
    if c = sep then [] :: splitOnChar sep cs
    else
      match splitOnChar sep cs with
      | [] => [[c]]
      | t :: ts => (c :: t) :: ts

def isDigitCh (c : Char) : Bool :=
  '0' ≤ c && c ≤ '9'

def digToNat (c : Char) : Nat := c.toNat - 48

def digitsVal (cs : Str) : Nat :=
  cs.foldl (fun n c => 10 * n + digToNat c) 0

/-- Magnitude part of a decimal literal: digits, optionally with a decimal
point (`"1"`, `"1.5"`, `"1."`, `".5"`); anything else is rejected. -/
def pyFloatMag (cs : Str) : Option ℚ :=
  let ip := cs.takeWhile isDigitCh
  let rest := cs.dropWhile isDigitCh
  match rest with
  | [] => if ip.isEmpty then none else some (digitsVal ip : ℚ)
  | '.' :: fp =>
    if fp.all isDigitCh && !(ip.isEmpty && fp.isEmpty) then
      some ((digitsVal ip : ℚ) + (digitsVal fp : ℚ) / (10 : ℚ) ^ fp.length)
    else none
  | _ => none

/-- Python's built-in `float(s)` on the decimal literals the device protocol
uses: optional surrounding whitespace, optional sign, decimal digits with an
optional fractional part.  (Exponent, `inf`/`nan` and underscore forms of
`float` are not exercised by this protocol.)  Returns `none` where `float`
raises `ValueError`. -/
def pyFloat (cs : Str) : Option ℚ :=
  match strip cs with
  | '-' :: rest => (pyFloatMag rest).map (fun q => -q)
  | '+' :: rest => pyFloatMag rest
  | rest => pyFloatMag rest

/-- `CircularBuffer` from `subplot_record.py`: numpy array of `capacity`
zeros, write cursor `index`, wrap flag `full`. -/
structure CircularBuffer where
  capacity : Nat
  buffer : List ℚ
  index : Nat
  full : Bool
deriving DecidableEq

/-- `CircularBuffer.__init__` -/
def CircularBuffer.init (capacity : Nat) : CircularBuffer :=
  { capacity := capacity
    buffer := List.replicate capacity 0
    index := 0
    full := false }

/-- `CircularBuffer.push`: write at the cursor, advance modulo capacity,
set `full` once the cursor returns to zero. -/
def CircularBuffer.push (b : CircularBuffer) (value : ℚ) : CircularBuffer :=
  let buffer := b.buffer.set b.index value
  let index := (b.index + 1) % b.capacity
  { b with buffer := buffer, index := index
           full := if index = 0 then true else b.full }

/-- `CircularBuffer.get_data`: chronological (oldest-first) contents. -/
def CircularBuffer.get_data (b : CircularBuffer) : List ℚ :=
  if b.full then b.buffer.drop b.index ++ b.buffer.take b.index
  else b.buffer.take b.index

/-- `self.current_record`: a Python dict from channel name to value,
insertion-ordered.  Keys stay unique because assignment replaces the first
(only) binding of a present key and otherwise appends. -/
abbrev Record := List (Str × ℚ)

/-- Python `record[key] = v`: update in place if `key` is present,
otherwise append a new binding. -/
def Record.set (r : Record) (key : Str) (v : ℚ) : Record :=
  if r.any (fun kv => kv.1 = key) then
    r.map (fun kv => if kv.1 = key then (kv.1, v) else kv)
  else r ++ [(key, v)]

/-- Python `record[key]` / `key in record`: first binding of `key`. -/
def Record.get? : Record → Str → Option ℚ
  | [], _ => none
  | kv :: r, key => if kv.1 = key then some kv.2 else Record.get? r key

/-- `record.values()` in insertion order. -/
def Record.values (r : Record) : List ℚ := r.map (fun kv => kv.2)

def ppg_channels : List Str := [['C'], ['R'], ['I','R'], ['G']]
def acc_channels : List Str := [['X'], ['Y'], ['Z']]

/-- `sensor_map = {"C": 0, "R": 1, "IR": 2, "G": 3, "X": 4, "Y": 5, "Z": 6}` -/
def sensor_map (name : Str) : Option Nat :=
  if name = ['C'] then some 0
  else if name = ['R'] then some 1
  else if name = ['I','R'] then some 2
  else if name = ['G'] then some 3
  else if name = ['X'] then some 4
  else if name = ['Y'] then some 5
  else if name = ['Z'] then some 6
  else none

/-- The seven known channel names in fixed export order. -/
def channel_names : List Str :=
  [['C'], ['R'], ['I','R'], ['G'], ['X'], ['Y'], ['Z']]

/-- Replace the element at position `i` (no-op when out of range), used for
`self.data_buffers[buffer_index]` updates. -/
def modifyAt (f : CircularBuffer → CircularBuffer) :
    Nat → List CircularBuffer → List CircularBuffer
  | _, [] => []
  | 0, b :: bs => f b :: bs
  | n + 1, b :: bs => b :: modifyAt f n bs

/-- The core state of `SerialPlotterWindow`: the plotting buffers, the
session store `data_records` (a dict keyed by `sample_count`, modelled as an
insertion-ordered list of `(index, record)` pairs), the current record, the
two group flags, and the counters. -/
structure SerialPlotterWindow where
  data_buffers : List CircularBuffer
  buffer_capacity : Nat
  data_records : List (Nat × Record)
  current_record : Record
  ppg_updated : Bool
  acc_updated : Bool
  sample_count : Nat
deriving DecidableEq

/-- One iteration of the `for value in values:` loop in
`receive_serial_data`.  Returns `.error ()` where Python raises
(`IndexError` on a missing `sensor_data[1]`, `ValueError` from `float`);
otherwise the updated state and the local `is_ppg_data` / `is_acc_data`
flags. -/
def process_field (st : SerialPlotterWindow) (is_ppg is_acc : Bool)
    (value : Str) : Except Unit (SerialPlotterWindow × Bool × Bool) :=
  if ':' ∈ value then
    let sensor_data := splitOnChar ':' value
    let sensor_name := strip (sensor_data.headD [])
    match sensor_data.get? 1 with
    | none => .error ()
    | some raw =>
      match pyFloat raw with
      | none => .error ()
      | some sensor_value =>
        let st := { st with
          current_record := st.current_record.set sensor_name sensor_value }
        let is_ppg := if sensor_name ∈ ppg_channels then true else is_ppg
        let is_acc :=
          if sensor_name ∈ ppg_channels then is_acc
          else if sensor_name ∈ acc_channels then true else is_acc
        let st :=
          match sensor_map sensor_name with
          | some buffer_index =>
            if buffer_index < st.data_buffers.length then
              { st with data_buffers :=
                  (modifyAt (fun b => b.push sensor_value) buffer_index st.data_buffers) }
            else st
          | none => st
        .ok (st, is_ppg, is_acc)
  else .ok (st, is_ppg, is_acc)

/-- The whole `for value in values:` loop.  On an exception the state
accumulated so far is kept (the `except` clause only logs). -/
def process_fields (st : SerialPlotterWindow) (is_ppg is_acc : Bool) :
    List Str → Except SerialPlotterWindow (SerialPlotterWindow × Bool × Bool)
  | [] => .ok (st, is_ppg, is_acc)
  | value :: rest =>
    match process_field st is_ppg is_acc value with
    | .error () => .error st
    | .ok (st', is_ppg', is_acc') => process_fields st' is_ppg' is_acc' rest

/-- The tail of the per-line body: update the group flags from the local
loop flags, then emit a snapshot when both groups are updated and every
current value is non-zero. -/
def finish_line (st : SerialPlotterWindow) (is_ppg is_acc : Bool) :
    SerialPlotterWindow :=
  let st1 := { st with
    ppg_updated := st.ppg_updated || is_ppg
    acc_updated := st.acc_updated || is_acc }
  if st1.ppg_updated && st1.acc_updated then
    if st1.current_record.values.all (fun v => v != 0) then
      { st1 with
        sample_count := st1.sample_count + 1
        data_records :=
          st1.data_records ++ [(st1.sample_count + 1, st1.current_record)]
        ppg_updated := false
        acc_updated := false }
    else st1
  else st1

/-- Process the token list of one line; the `Bool` reports whether a parse
error was caught (and logged) for this line. -/
def process_line_tokens (st : SerialPlotterWindow) (values : List Str) :
    SerialPlotterWindow × Bool :=
  match process_fields st false false values with
  | .error st' => (st', true)
  | .ok (st', is_ppg, is_acc) => (finish_line st' is_ppg is_acc, false)

/-- One decoded line of `receive_serial_data`: strip, split on commas,
run the field loop and the emission check. -/
def receive_line (st : SerialPlotterWindow) (line : Str) :
    SerialPlotterWindow × Bool :=
  process_line_tokens st (splitOnChar ',' (strip line))

/-- One raw line; `none` stands for a byte sequence on which
`decode("utf-8")` raises, which the same `except` clause catches before any
field is processed. -/
def receive_raw (st : SerialPlotterWindow) (raw : Option Str) :
    SerialPlotterWindow × Bool :=
  match raw with
  | none => (st, true)
  | some line => receive_line st line

/-- The `while self.serial_port.canReadLine():` loop over a batch of raw
lines. -/
def receive_serial_data (st : SerialPlotterWindow)
    (raws : List (Option Str)) : SerialPlotterWindow :=
  raws.foldl (fun s r => (receive_raw s r).1) st

/-- Processing a sequence of well-decoded lines. -/
def processLines (st : SerialPlotterWindow) (ls : List Str) :
    SerialPlotterWindow :=
  ls.foldl (fun s l => (receive_line s l).1) st

/-- Outcome of `export_data` as far as the session store dictates it:
`noData` is the "No data to export" warning (no dialog, no file write),
`failed` the catch-all export failure, `ok` the written header and data
rows. -/
inductive ExportResult where
  | noData
  | failed
  | ok (header : List Str) (rows : List (List ℚ))
deriving DecidableEq

/-- One CSV data row: `record["C"], ..., record["Z"]`; `none` models the
`KeyError` the catch-all `except` would turn into a failure. -/
def record_row (r : Record) : Option (List ℚ) :=
  match r.get? ['C'], r.get? ['R'], r.get? ['I','R'], r.get? ['G'],
      r.get? ['X'], r.get? ['Y'], r.get? ['Z'] with
  | some c, some rr, some ir, some g, some x, some y, some z =>
    some [c, rr, ir, g, x, y, z]
  | _, _, _, _, _, _, _ => none

def allSome : List (Option (List ℚ)) → Option (List (List ℚ))
  | [] => some []
  | none :: _ => none
  | some row :: rest => (allSome rest).map (fun rows => row :: rows)

/-- `export_data`: with an empty store, warn and write nothing; otherwise
write the fixed header and one row per stored record in insertion order. -/
def export_data (st : SerialPlotterWindow) : ExportResult :=
  if st.data_records.length > 0 then
    match allSome (st.data_records.map (fun p => record_row p.2)) with
    | some rows => .ok channel_names rows
    | none => .failed
  else .noData

/-- The export button handler: it only reads the store. -/
def export_step (st : SerialPlotterWindow) :
    SerialPlotterWindow × ExportResult :=
  (st, export_data st)

/-- `self.buffer_sizes` -/
def buffer_sizes : List Nat := [1000, 3000, 5000, 7000, 10000]

/-- `change_buffer_size`: look up the selected capacity and replace every
live buffer with a fresh one of that capacity (`none` models the
`IndexError` an out-of-range combo index would raise). -/
def change_buffer_size (st : SerialPlotterWindow) (index : Nat) :
    Option SerialPlotterWindow :=
  (buffer_sizes.get? index).map (fun cap =>
    { st with
      buffer_capacity := cap
      data_buffers := st.data_buffers.map (fun _ => CircularBuffer.init cap) })

/-- `__init__`'s record: every channel starts at 0. -/
def init_record : Record :=
  [(['C'], 0), (['R'], 0), (['I','R'], 0), (['G'], 0),
   (['X'], 0), (['Y'], 0), (['Z'], 0)]

/-- State after `SerialPlotterWindow.__init__` and the seven `add_graph`
calls in `__main__`: seven buffers of the default capacity 1000, zeroed
record, cleared flags, empty store. -/
def appState : SerialPlotterWindow :=
  { data_buffers := List.replicate 7 (CircularBuffer.init 1000)
    buffer_capacity := 1000
    data_records := []
    current_record := init_record
    ppg_updated := false
    acc_updated := false
    sample_count := 0 }

/-- The channel name a token would be parsed under, if it is a
`name:value` token (mirrors the name computation of the field loop). -/
def tokenName? (tok : Str) : Option Str :=
  if ':' ∈ tok then some (strip ((splitOnChar ':' tok).headD [])) else none

/-- The seven values of a record in fixed export column order (defaulting
to 0 for an absent key; the export theorems certify the default is never
used on emitted records). -/
def seven_vals (r : Record) : List ℚ :=
  [(r.get? ['C']).getD 0, (r.get? ['R']).getD 0, (r.get? ['I','R']).getD 0,
   (r.get? ['G']).getD 0, (r.get? ['X']).getD 0, (r.get? ['Y']).getD 0,
   (r.get? ['Z']).getD 0]

/-- A record binding all seven known channels. -/
def GoodRec (r : Record) : Prop :=
  ∀ k ∈ channel_names, (r.get? k).isSome

/-- All stored and current records bind the seven channels. -/
def GoodState (st : SerialPlotterWindow) : Prop :=
  GoodRec st.current_record ∧ ∀ p ∈ st.data_records, GoodRec p.2

/-- The fields of the state the parsing loop never writes. -/
def LoopFrame (st st' : SerialPlotterWindow) : Prop :=
  st'.data_records = st.data_records ∧
  st'.sample_count = st.sample_count ∧
  st'.ppg_updated = st.ppg_updated ∧
  st'.acc_updated = st.acc_updated

/-! ### CircularBuffer: `get_data` returns the last `min L N` pushes -/

/-- The last `N` elements of a list (all of it when it is shorter). -/
def lastN (N : Nat) (l : List ℚ) : List ℚ := l.drop (l.length - N)

/-- The buffer contents read oldest-first from the cursor. -/
def rotView (b : CircularBuffer) : List ℚ :=
  b.buffer.drop b.index ++ b.buffer.take b.index

/-- Relation between a buffer and the full history `h` of values pushed
into it since it was created with capacity `N`. -/
def BufInv (N : Nat) (h : List ℚ) (b : CircularBuffer) : Prop :=
  b.capacity = N ∧ b.buffer.length = N ∧ b.index = h.length % N ∧
  (b.full = true ↔ N ≤ h.length) ∧
  rotView b = lastN N (List.replicate N 0 ++ h)

lemma bufInv_init (N : Nat) (hN : 0 < N) :
    BufInv N [] (CircularBuffer.init N) := by
  refine ⟨rfl, by simp [CircularBuffer.init], by simp [CircularBuffer.init],
    ?_, ?_⟩
  · simp [CircularBuffer.init]
    omega
  · simp [CircularBuffer.init, rotView, lastN]

lemma rotate_set (l : List ℚ) (v : ℚ) (i : Nat) (hi : i < l.length) :
    (l.set i v).drop ((i + 1) % l.length) ++
        (l.set i v).take ((i + 1) % l.length)
      = ((l.drop i ++ l.take i).drop 1) ++ [v] := by
  have hset : l.set i v = l.take i ++ v :: l.drop (i + 1) :=
    List.set_eq_take_cons_drop v hi
  have htake : (l.take i).length = i := by
    simp [List.length_take]
    omega
  have hdropi : l.drop i = l[i] :: l.drop (i + 1) :=
    List.drop_eq_getElem_cons hi
  rcases Nat.lt_or_ge (i + 1) l.length with hlt | hge
  · have hmod : (i + 1) % l.length = i + 1 := Nat.mod_eq_of_lt hlt
    rw [hmod, hset]
    have h1 : (l.take i ++ v :: l.drop (i + 1)).drop (i + 1)
        = l.drop (i + 1) := by
      have := @List.drop_append _ (l.take i) (v :: l.drop (i + 1)) 1
      rw [htake] at this
      simpa using this
    have h2 : (l.take i ++ v :: l.drop (i + 1)).take (i + 1)
        = l.take i ++ [v] := by
      have := @List.take_append _ (l.take i) (v :: l.drop (i + 1)) 1
      rw [htake] at this
      simpa using this
    rw [h1, h2, hdropi, List.cons_append, List.drop_succ_cons,
      List.drop_zero, List.append_assoc]
  · have heq : i + 1 = l.length := by omega
    have hmod : (i + 1) % l.length = 0 := by
      rw [heq, Nat.mod_self]
    have hdrop_nil : l.drop (i + 1) = [] := by
      rw [heq, List.drop_length]
    rw [hmod, hset, hdrop_nil, hdropi, hdrop_nil]
    simp

lemma lastN_concat (N : Nat) (hN : 0 < N) (l : List ℚ) (v : ℚ)
    (hl : N ≤ l.length) :
    lastN N (l ++ [v]) = (lastN N l).drop 1 ++ [v] := by
  unfold lastN
  have h1 : (l ++ [v]).length - N = (l.length - N) + 1 := by
    simp
    omega
  have h2 : (l.length - N) + 1 ≤ l.length := by omega
  rw [h1, List.drop_append_of_le_length h2, List.drop_drop]

lemma bufInv_push (N : Nat) (hN : 0 < N) (h : List ℚ)
    (b : CircularBuffer) (inv : BufInv N h b) (v : ℚ) :
    BufInv N (h ++ [v]) (b.push v) := by
  obtain ⟨hcap, hlen, hidx, hfull, hview⟩ := inv
  have hi : b.index < N := by
    rw [hidx]
    exact Nat.mod_lt _ hN
  have hi' : b.index < b.buffer.length := by rw [hlen]; exact hi
  have hidx' : (b.index + 1) % N = (h.length + 1) % N := by
    rw [hidx, Nat.mod_add_mod]
  constructor
  · -- capacity
    simpa [CircularBuffer.push] using hcap
  constructor
  · -- length
    simp [CircularBuffer.push, List.length_set, hlen]
  constructor
  · -- index
    simp only [CircularBuffer.push, hcap]
    rw [hidx']
    simp
  constructor
  · -- full flag
    simp only [CircularBuffer.push, hcap]
    rw [hidx']
    rcases Nat.eq_zero_or_pos ((h.length + 1) % N) with hz | hpos
    · rw [hz]
      simp only [if_pos rfl]
      have hdvd : N ∣ h.length + 1 := Nat.dvd_of_mod_eq_zero hz
      have : N ≤ h.length + 1 := Nat.le_of_dvd (Nat.succ_pos _) hdvd
      simp [this]
    · have hz' : (h.length + 1) % N ≠ 0 := by omega
      rw [if_neg hz']
      rw [hfull]
      constructor
      · intro hle
        simp
        omega
      · intro hle
        simp at hle
        rcases Nat.lt_or_ge h.length N with hlt | hge
        · have : h.length + 1 = N := by omega
          rw [← this] at hz'
          simp at hz'
        · exact hge
  · -- rotated view
    have hrot := rotate_set b.buffer v b.index hi'
    rw [hlen] at hrot
    show rotView (b.push v) = lastN N (List.replicate N 0 ++ (h ++ [v]))
    simp only [rotView, CircularBuffer.push]
    rw [hcap, hrot]
    rw [show (b.buffer.drop b.index ++ b.buffer.take b.index) = rotView b
      from rfl]
    rw [hview, ← List.append_assoc]
    rw [lastN_concat N hN (List.replicate N 0 ++ h) v (by simp)]

lemma bufInv_pushAll (N : Nat) (hN : 0 < N) (xs : List ℚ) :
    ∀ (h : List ℚ) (b : CircularBuffer), BufInv N h b →
      BufInv N (h ++ xs) (xs.foldl CircularBuffer.push b) := by
  induction xs with
  | nil => intro h b inv; simpa using inv
  | cons x xs ih =>
    intro h b inv
    have := ih (h ++ [x]) (b.push x) (bufInv_push N hN h b inv x)
    simpa using this

lemma get_data_core (N : Nat) (hN : 0 < N) (xs : List ℚ) :
    (xs.foldl CircularBuffer.push (CircularBuffer.init N)).get_data
      = xs.drop (xs.length - N) := by
  have inv := bufInv_pushAll N hN xs [] (CircularBuffer.init N)
    (bufInv_init N hN)
  simp only [List.nil_append] at inv
  obtain ⟨hcap, hlen, hidx, hfull, hview⟩ := inv
  set b := xs.foldl CircularBuffer.push (CircularBuffer.init N) with hb
  have hpadlen : (List.replicate N (0 : ℚ)).length = N :=
    List.length_replicate N 0
  have hviewlen : (List.replicate N (0 : ℚ) ++ xs).length - N = xs.length := by
    simp
  rcases Nat.lt_or_ge xs.length N with hlt | hge
  · -- not yet wrapped
    have hnf : b.full = false := by
      cases hbf : b.full with
      | false => rfl
      | true => exfalso; have := hfull.1 hbf; omega
    have hds : xs.length - N = 0 := by omega
    rw [hds, List.drop_zero]
    unfold CircularBuffer.get_data
    rw [if_neg (by simp [hnf])]
    have hidx2 : b.index = xs.length := by
      rw [hidx, Nat.mod_eq_of_lt hlt]
    have hview2 : b.buffer.drop b.index ++ b.buffer.take b.index
        = List.replicate (N - xs.length) 0 ++ xs := by
      have := hview
      unfold rotView lastN at this
      rw [hviewlen] at this
      rw [this, List.drop_append_of_le_length (by rw [hpadlen]; omega),
        List.drop_replicate]
    have hlens : (b.buffer.drop b.index).length
        = (List.replicate (N - xs.length) (0 : ℚ)).length := by
      simp only [List.length_drop, List.length_replicate, hlen, hidx2]
    exact (List.append_inj hview2 hlens).2
  · -- wrapped
    have hf : b.full = true := hfull.2 hge
    unfold CircularBuffer.get_data
    rw [if_pos hf]
    have hv := hview
    unfold rotView lastN at hv
    rw [hviewlen] at hv
    rw [hv]
    have hxl : xs.length
        = (List.replicate N (0 : ℚ)).length + (xs.length - N) := by
      rw [hpadlen]
      omega
    conv_lhs => rw [hxl]
    rw [List.drop_append]

/-! ### Record (Python dict) lemmas -/

lemma Record.get?_set_self (r : Record) (key : Str) (v : ℚ) :
    (r.set key v).get? key = some v := by
  unfold Record.set
  by_cases hany : r.any (fun kv => kv.1 = key)
  · rw [if_pos hany]
    induction r with
    | nil => simp at hany
    | cons kv r ih =>
      simp only [List.any_cons, Bool.or_eq_true, decide_eq_true_eq] at hany
      by_cases hk : kv.1 = key
      · rw [List.map_cons, if_pos hk]
        simp only [Record.get?]
        rw [if_pos hk]
      · have hr : r.any (fun kv => kv.1 = key) := by
          rcases hany with h | h
          · exact absurd h hk
          · exact h
        rw [List.map_cons, if_neg hk]
        simp only [Record.get?]
        rw [if_neg hk]
        exact ih hr
  · rw [if_neg hany]
    induction r with
    | nil => simp [Record.get?]
    | cons kv r ih =>
      simp only [List.any_cons, Bool.or_eq_true, decide_eq_true_eq,
        not_or] at hany
      simp only [List.cons_append, Record.get?, if_neg hany.1]
      exact ih (by simpa using hany.2)

lemma Record.get?_set_other (r : Record) (key : Str) (v : ℚ) (k : Str)
    (hk : key ≠ k) :
    (r.set key v).get? k = r.get? k := by
  unfold Record.set
  by_cases hany : r.any (fun kv => kv.1 = key)
  · rw [if_pos hany]
    clear hany
    induction r with
    | nil => simp
    | cons kv r ih =>
      by_cases hkv : kv.1 = key
      · rw [List.map_cons, if_pos hkv]
        simp only [Record.get?]
        rw [if_neg (show ¬(kv.1 = k) by rw [hkv]; exact hk),
          if_neg (show ¬(kv.1 = k) by rw [hkv]; exact hk)]
        exact ih
      · rw [List.map_cons, if_neg hkv]
        simp only [Record.get?]
        by_cases hkk : kv.1 = k
        · rw [if_pos hkk, if_pos hkk]
        · rw [if_neg hkk, if_neg hkk]
          exact ih
  · rw [if_neg hany]
    clear hany
    induction r with
    | nil =>
      simp only [List.nil_append, Record.get?]
      rw [if_neg (show ¬(key, v).1 = k from hk)]
    | cons kv r ih =>
      simp only [List.cons_append, Record.get?]
      by_cases hkk : kv.1 = k
      · rw [if_pos hkk, if_pos hkk]
      · rw [if_neg hkk, if_neg hkk]
        exact ih

lemma Record.get?_mem_values (r : Record) (k : Str) (q : ℚ)
    (h : r.get? k = some q) : q ∈ r.values := by
  induction r with
  | nil => simp [Record.get?] at h
  | cons kv r ih =>
    unfold Record.get? at h
    by_cases hkk : kv.1 = k
    · rw [if_pos hkk] at h
      injection h with h
      simp [Record.values, h]
    · rw [if_neg hkk] at h
      simp [Record.values] at ih ⊢
      right
      exact ih h

/-! ### Frame lemmas for the field loop -/

lemma process_field_ok_frame (st : SerialPlotterWindow) (p a : Bool)
    (tok : Str) (st' : SerialPlotterWindow) (p' a' : Bool)
    (h : process_field st p a tok = .ok (st', p', a')) :
    LoopFrame st st' := by
  simp only [process_field] at h
  split at h
  · -- ':' ∈ tok
    split at h
    · -- sensor_data.get? 1 = none
      simp at h
    · -- some raw
      split at h
      · -- pyFloat raw = none
        simp at h
      · -- some value
        split at h
        · -- sensor_map hit
          split at h
          · -- buffer index in range
            simp only [Except.ok.injEq, Prod.mk.injEq] at h
            obtain ⟨h1, -, -⟩ := h
            subst h1
            exact ⟨rfl, rfl, rfl, rfl⟩
          · simp only [Except.ok.injEq, Prod.mk.injEq] at h
            obtain ⟨h1, -, -⟩ := h
            subst h1
            exact ⟨rfl, rfl, rfl, rfl⟩
        · simp only [Except.ok.injEq, Prod.mk.injEq] at h
          obtain ⟨h1, -, -⟩ := h
          subst h1
          exact ⟨rfl, rfl, rfl, rfl⟩
  · -- no colon: token skipped
    simp only [Except.ok.injEq, Prod.mk.injEq] at h
    obtain ⟨h1, -, -⟩ := h
    subst h1
    exact ⟨rfl, rfl, rfl, rfl⟩

lemma loopFrame_rfl (st : SerialPlotterWindow) : LoopFrame st st :=
  ⟨rfl, rfl, rfl, rfl⟩

lemma loopFrame_trans {s1 s2 s3 : SerialPlotterWindow}
    (h1 : LoopFrame s1 s2) (h2 : LoopFrame s2 s3) : LoopFrame s1 s3 := by
  obtain ⟨a1, b1, c1, d1⟩ := h1
  obtain ⟨a2, b2, c2, d2⟩ := h2
  exact ⟨a2.trans a1, b2.trans b1, c2.trans c1, d2.trans d1⟩

lemma process_fields_frame (toks : List Str) :
    ∀ (st : SerialPlotterWindow) (p a : Bool),
      (∀ st' p' a', process_fields st p a toks = .ok (st', p', a') →
        LoopFrame st st') ∧
      (∀ st', process_fields st p a toks = .error st' → LoopFrame st st') := by
  induction toks with
  | nil =>
    intro st p a
    constructor
    · intro st' p' a' h
      simp only [process_fields, Except.ok.injEq, Prod.mk.injEq] at h
      obtain ⟨h1, -, -⟩ := h
      subst h1
      exact loopFrame_rfl st
    · intro st' h
      simp [process_fields] at h
  | cons tok rest ih =>
    intro st p a
    constructor
    · intro st' p' a' h
      unfold process_fields at h
      split at h
      · simp at h
      · rename_i st1 p1 a1 heq
        exact loopFrame_trans
          (process_field_ok_frame st p a tok st1 p1 a1 heq)
          ((ih st1 p1 a1).1 st' p' a' h)
    · intro st' h
      unfold process_fields at h
      split at h
      · simp only [Except.error.injEq] at h
        subst h
        exact loopFrame_rfl _
      · rename_i st1 p1 a1 heq
        exact loopFrame_trans
          (process_field_ok_frame st p a tok st1 p1 a1 heq)
          ((ih st1 p1 a1).2 st' h)

lemma process_field_current (st : SerialPlotterWindow) (p a : Bool)
    (tok : Str) (st' : SerialPlotterWindow) (p' a' : Bool)
    (h : process_field st p a tok = .ok (st', p', a')) :
    (tokenName? tok = none ∧ st'.current_record = st.current_record) ∨
    (∃ name v, tokenName? tok = some name ∧
      st'.current_record = st.current_record.set name v) := by
  simp only [process_field] at h
  split at h
  · rename_i hc
    right
    split at h
    · simp at h
    · rename_i raw hraw
      split at h
      · simp at h
      · rename_i v hv
        refine ⟨strip ((splitOnChar ':' tok).headD []), v, ?_, ?_⟩
        · simp [tokenName?, hc]
        · split at h
          · split at h
            · simp only [Except.ok.injEq, Prod.mk.injEq] at h
              obtain ⟨h1, -, -⟩ := h
              subst h1
              rfl
            · simp only [Except.ok.injEq, Prod.mk.injEq] at h
              obtain ⟨h1, -, -⟩ := h
              subst h1
              rfl
          · simp only [Except.ok.injEq, Prod.mk.injEq] at h
            obtain ⟨h1, -, -⟩ := h
            subst h1
            rfl
  · rename_i hc
    left
    simp only [Except.ok.injEq, Prod.mk.injEq] at h
    obtain ⟨h1, -, -⟩ := h
    subst h1
    exact ⟨by simp [tokenName?, hc], rfl⟩

lemma goodRec_set (r : Record) (key : Str) (v : ℚ) (h : GoodRec r) :
    GoodRec (r.set key v) := by
  intro k hk
  by_cases hkey : key = k
  · subst hkey
    rw [Record.get?_set_self]
    rfl
  · rw [Record.get?_set_other r key v k hkey]
    exact h k hk

lemma process_fields_current (toks : List Str) :
    ∀ (st : SerialPlotterWindow) (p a : Bool) (c : Str),
      (∀ tok ∈ toks, tokenName? tok ≠ some c) →
      (∀ st' p' a', process_fields st p a toks = .ok (st', p', a') →
        st'.current_record.get? c = st.current_record.get? c) ∧
      (∀ st', process_fields st p a toks = .error st' →
        st'.current_record.get? c = st.current_record.get? c) := by
  induction toks with
  | nil =>
    intro st p a c _
    constructor
    · intro st' p' a' h
      simp only [process_fields, Except.ok.injEq, Prod.mk.injEq] at h
      obtain ⟨h1, -, -⟩ := h
      subst h1
      rfl
    · intro st' h
      simp [process_fields] at h
  | cons tok rest ih =>
    intro st p a c hname
    have hstep : ∀ st1 p1 a1, process_field st p a tok = .ok (st1, p1, a1) →
        st1.current_record.get? c = st.current_record.get? c := by
      intro st1 p1 a1 heq
      rcases process_field_current st p a tok st1 p1 a1 heq with
        ⟨-, hsame⟩ | ⟨name, v, hn, hset⟩
      · rw [hsame]
      · have hne : name ≠ c := by
          intro hcontra
          exact hname tok (List.mem_cons_self tok rest) (by rw [hn, hcontra])
        rw [hset, Record.get?_set_other _ _ _ _ hne]
    have hrest : ∀ tok' ∈ rest, tokenName? tok' ≠ some c := by
      intro tok' htok'
      exact hname tok' (List.mem_cons_of_mem tok htok')
    constructor
    · intro st' p' a' h
      unfold process_fields at h
      split at h
      · simp at h
      · rename_i st1 p1 a1 heq
        rw [((ih st1 p1 a1 c hrest).1 st' p' a' h), hstep st1 p1 a1 heq]
    · intro st' h
      unfold process_fields at h
      split at h
      · simp only [Except.error.injEq] at h
        subst h
        rfl
      · rename_i st1 p1 a1 heq
        rw [((ih st1 p1 a1 c hrest).2 st' h), hstep st1 p1 a1 heq]

lemma process_fields_good (toks : List Str) :
    ∀ (st : SerialPlotterWindow) (p a : Bool),
      GoodRec st.current_record →
      (∀ st' p' a', process_fields st p a toks = .ok (st', p', a') →
        GoodRec st'.current_record) ∧
      (∀ st', process_fields st p a toks = .error st' →
        GoodRec st'.current_record) := by
  induction toks with
  | nil =>
    intro st p a hg
    constructor
    · intro st' p' a' h
      simp only [process_fields, Except.ok.injEq, Prod.mk.injEq] at h
      obtain ⟨h1, -, -⟩ := h
      subst h1
      exact hg
    · intro st' h
      simp [process_fields] at h
  | cons tok rest ih =>
    intro st p a hg
    have hstep : ∀ st1 p1 a1, process_field st p a tok = .ok (st1, p1, a1) →
        GoodRec st1.current_record := by
      intro st1 p1 a1 heq
      rcases process_field_current st p a tok st1 p1 a1 heq with
        ⟨-, hsame⟩ | ⟨name, v, -, hset⟩
      · rw [hsame]; exact hg
      · rw [hset]; exact goodRec_set _ _ _ hg
    constructor
    · intro st' p' a' h
      unfold process_fields at h
      split at h
      · simp at h
      · rename_i st1 p1 a1 heq
        exact (ih st1 p1 a1 (hstep st1 p1 a1 heq)).1 st' p' a' h
    · intro st' h
      unfold process_fields at h
      split at h
      · simp only [Except.error.injEq] at h
        subst h
        exact hg
      · rename_i st1 p1 a1 heq
        exact (ih st1 p1 a1 (hstep st1 p1 a1 heq)).2 st' h

/-! ### finish_line lemmas -/

lemma finish_line_current (st : SerialPlotterWindow) (p a : Bool) :
    (finish_line st p a).current_record = st.current_record := by
  simp only [finish_line]
  split
  · split
    · rfl
    · rfl
  · rfl

lemma finish_line_step (st : SerialPlotterWindow) (p a : Bool) :
    ((finish_line st p a).data_records = st.data_records ∧
      (finish_line st p a).sample_count = st.sample_count) ∨
    ((finish_line st p a).data_records
        = st.data_records ++ [(st.sample_count + 1, st.current_record)] ∧
      (finish_line st p a).sample_count = st.sample_count + 1) := by
  simp only [finish_line]
  split
  · split
    · right
      exact ⟨rfl, rfl⟩
    · left
      exact ⟨rfl, rfl⟩
  · left
    exact ⟨rfl, rfl⟩

lemma finish_line_zero (st : SerialPlotterWindow) (p a : Bool)
    (h : (0 : ℚ) ∈ st.current_record.values) :
    (finish_line st p a).data_records = st.data_records ∧
    (finish_line st p a).sample_count = st.sample_count ∧
    (finish_line st p a).ppg_updated = (st.ppg_updated || p) ∧
    (finish_line st p a).acc_updated = (st.acc_updated || a) := by
  have hall : st.current_record.values.all (fun v => v != 0) = false := by
    rw [List.all_eq_false]
    exact ⟨0, h, by simp⟩
  simp only [finish_line]
  split
  · rw [hall]
    simp
  · exact ⟨rfl, rfl, rfl, rfl⟩

lemma receive_line_step (st : SerialPlotterWindow) (line : Str) :
    ((receive_line st line).1.data_records = st.data_records ∧
      (receive_line st line).1.sample_count = st.sample_count) ∨
    ((receive_line st line).1.data_records
        = st.data_records
          ++ [(st.sample_count + 1, (receive_line st line).1.current_record)] ∧
      (receive_line st line).1.sample_count = st.sample_count + 1) := by
  unfold receive_line process_line_tokens
  split
  · rename_i st1 heq
    left
    have := (process_fields_frame _ st false false).2 st1 heq
    exact ⟨this.1, this.2.1⟩
  · rename_i st1 p a heq
    have hfr := (process_fields_frame _ st false false).1 st1 p a heq
    rcases finish_line_step st1 p a with ⟨h1, h2⟩ | ⟨h1, h2⟩
    · left
      exact ⟨h1.trans hfr.1, h2.trans hfr.2.1⟩
    · right
      refine ⟨?_, ?_⟩
      · rw [finish_line_current, h1, hfr.1, hfr.2.1]
      · rw [h2, hfr.2.1]

/-! ### Claim theorems -/

/-- Claim C1: for every positive capacity `N` and push sequence `xs` of
length `L` into a fresh `CircularBuffer`, `get_data()` returns exactly the
last `min L N` pushed values oldest-first: all of `xs` when `L ≤ N`, the
last `N` values when `L > N`. -/
theorem get_data_returns_last_pushes (N : Nat) (hN : 0 < N) (xs : List ℚ) :
    (xs.foldl CircularBuffer.push (CircularBuffer.init N)).get_data
        = xs.drop (xs.length - N) ∧
    (xs.foldl CircularBuffer.push (CircularBuffer.init N)).get_data.length
        = min xs.length N ∧
    (xs.length ≤ N →
      (xs.foldl CircularBuffer.push (CircularBuffer.init N)).get_data = xs) ∧
    (N < xs.length →
      (xs.foldl CircularBuffer.push (CircularBuffer.init N)).get_data
          = xs.drop (xs.length - N) ∧
      (xs.foldl CircularBuffer.push (CircularBuffer.init N)).get_data.length
          = N) := by
  have h := get_data_core N hN xs
  refine ⟨h, ?_, ?_, ?_⟩
  · rw [h, List.length_drop]
    omega
  · intro hle
    rw [h, show xs.length - N = 0 by omega, List.drop_zero]
  · intro hlt
    refine ⟨h, ?_⟩
    rw [h, List.length_drop]
    omega

theorem get_data_returns_last_pushes_witness :
    0 < 2 ∧
    (([1, 2, 3] : List ℚ).foldl CircularBuffer.push
        (CircularBuffer.init 2)).get_data = [2, 3] :=
  ⟨by decide,
    ((get_data_returns_last_pushes 2 (by decide) [1, 2, 3]).1).trans
      (by decide)⟩

/-- Claim C3: from the initial state (all seven channel values 0, both
flags false, empty store), processing `"C:1,R:2,IR:3,G:4"` then
`"X:5,Y:6,Z:7"` emits no record after the first line and exactly one
record, with the seven parsed values and sample index 1, after the
second. -/
theorem two_line_single_emission :
    (processLines appState
        [['C',':','1',',','R',':','2',',','I','R',':','3',',','G',':','4']]).data_records
      = [] ∧
    (processLines appState
        [['C',':','1',',','R',':','2',',','I','R',':','3',',','G',':','4'],
         ['X',':','5',',','Y',':','6',',','Z',':','7']]).data_records
      = [(1, [(['C'], 1), (['R'], 2), (['I','R'], 3), (['G'], 4),
              (['X'], 5), (['Y'], 6), (['Z'], 7)])] := by
  constructor
  · decide
  · decide

/-- Claim C7: a capacity change replaces every live buffer with a fresh
empty buffer of the newly selected capacity (empty `get_data`, cursor 0,
wrap flag cleared, no migration) and leaves the session store and record
state untouched. -/
theorem change_buffer_size_resets (st : SerialPlotterWindow) (index : Nat)
    (h : index < buffer_sizes.length) :
    ∃ st', change_buffer_size st index = some st' ∧
      st'.buffer_capacity = buffer_sizes.getD index 0 ∧
      st'.data_buffers = List.replicate st.data_buffers.length
          (CircularBuffer.init (buffer_sizes.getD index 0)) ∧
      (∀ b ∈ st'.data_buffers,
        b.get_data = [] ∧ b.index = 0 ∧ b.full = false) ∧
      st'.data_records = st.data_records ∧
      st'.current_record = st.current_record ∧
      st'.sample_count = st.sample_count := by
  cases hq : buffer_sizes.get? index with
  | none =>
    rw [List.get?_eq_none] at hq
    omega
  | some cap =>
    have hgetD : buffer_sizes.getD index 0 = cap := by
      rw [List.getD_eq_getElem?_getD, ← List.get?_eq_getElem?, hq]
      rfl
    refine ⟨{ st with
        buffer_capacity := cap
        data_buffers :=
          st.data_buffers.map (fun _ => CircularBuffer.init cap) },
      ?_, ?_, ?_, ?_, rfl, rfl, rfl⟩
    · rw [change_buffer_size, hq]
      rfl
    · exact hgetD.symm
    · rw [hgetD]
      exact List.map_const' st.data_buffers (CircularBuffer.init cap)
    · intro b hb
      rcases List.mem_map.1 hb with ⟨-, -, rfl⟩
      refine ⟨?_, rfl, rfl⟩
      simp [CircularBuffer.get_data, CircularBuffer.init]

theorem change_buffer_size_resets_witness :
    0 < buffer_sizes.length ∧
    ∃ st', change_buffer_size appState 0 = some st' ∧
      st'.buffer_capacity = buffer_sizes.getD 0 0 ∧
      st'.data_buffers = List.replicate appState.data_buffers.length
          (CircularBuffer.init (buffer_sizes.getD 0 0)) ∧
      (∀ b ∈ st'.data_buffers,
        b.get_data = [] ∧ b.index = 0 ∧ b.full = false) ∧
      st'.data_records = appState.data_records ∧
      st'.current_record = appState.current_record ∧
      st'.sample_count = appState.sample_count :=
  ⟨by decide, change_buffer_size_resets appState 0 (by decide)⟩

/-- Claim C8: exporting while the session store is empty reports the
"no data" error, performs no write, and leaves the state unchanged. -/
theorem export_empty_store (st : SerialPlotterWindow)
    (h : st.data_records = []) :
    export_step st = (st, ExportResult.noData) := by
  unfold export_step export_data
  rw [h]
  rfl

theorem export_empty_store_witness :
    export_step appState = (appState, ExportResult.noData) :=
  export_empty_store appState rfl

lemma processLines_invariant (ls : List Str) :
    ∀ st : SerialPlotterWindow,
      st.data_records.map Prod.fst = List.range' 1 st.sample_count →
      ((processLines st ls).data_records.map Prod.fst
          = List.range' 1 (processLines st ls).sample_count) ∧
      (processLines st ls).data_records.length
          ≤ st.data_records.length + ls.length ∧
      ∃ t, (processLines st ls).data_records = st.data_records ++ t := by
  induction ls with
  | nil =>
    intro st h
    exact ⟨h, by simp [processLines], [], by simp [processLines]⟩
  | cons l ls ih =>
    intro st h
    have hstep : processLines st (l :: ls)
        = processLines (receive_line st l).1 ls := rfl
    rcases receive_line_step st l with ⟨h1, h2⟩ | ⟨h1, h2⟩
    · have hinv : (receive_line st l).1.data_records.map Prod.fst
          = List.range' 1 (receive_line st l).1.sample_count := by
        rw [h1, h2]
        exact h
      obtain ⟨hi1, hi2, t, ht⟩ := ih (receive_line st l).1 hinv
      rw [hstep]
      refine ⟨hi1, ?_, t, ?_⟩
      · rw [h1] at hi2
        simp only [List.length_cons]
        omega
      · rw [ht, h1]
    · have hlen : st.data_records.length = st.sample_count := by
        have := congrArg List.length h
        simpa using this
      have hinv : (receive_line st l).1.data_records.map Prod.fst
          = List.range' 1 (receive_line st l).1.sample_count := by
        rw [h1, h2, List.map_append, h, List.range'_1_concat]
        simp [Nat.add_comm]
      obtain ⟨hi1, hi2, t, ht⟩ := ih (receive_line st l).1 hinv
      rw [hstep]
      refine ⟨hi1, ?_, ?_⟩
      · rw [h1] at hi2
        simp at hi2 ⊢
        omega
      · refine ⟨(st.sample_count + 1,
          (receive_line st l).1.current_record) :: t, ?_⟩
        rw [ht, h1]
        simp

/-- Claim C4: sample indices in the session store start at 1 and increase
strictly with no gaps or reuse, records are stored in the order their
triggering lines were processed, at most one record is emitted per
processed line, and stored records are never mutated afterwards (the store
only ever grows by appending). -/
theorem session_store_monotone (ls : List Str) :
    ((processLines appState ls).data_records.map Prod.fst
        = List.range' 1 (processLines appState ls).sample_count) ∧
    (processLines appState ls).data_records.length ≤ ls.length ∧
    (∀ more, ∃ t, (processLines appState (ls ++ more)).data_records
        = (processLines appState ls).data_records ++ t) := by
  have h := processLines_invariant ls appState (by simp [appState])
  refine ⟨h.1, by simpa [appState] using h.2.1, ?_⟩
  intro more
  have hsplit : processLines appState (ls ++ more)
      = processLines (processLines appState ls) more := by
    unfold processLines
    rw [List.foldl_append]
  rw [hsplit]
  exact (processLines_invariant more (processLines appState ls) h.1).2.2

lemma processLines_zero_blocked (ls : List Str) :
    ∀ (st : SerialPlotterWindow) (c : Str),
      st.current_record.get? c = some 0 →
      (∀ l ∈ ls, ∀ tok ∈ splitOnChar ',' (strip l), tokenName? tok ≠ some c) →
      (processLines st ls).data_records = st.data_records ∧
      (processLines st ls).current_record.get? c = some 0 := by
  induction ls with
  | nil =>
    intro st c h0 _
    exact ⟨rfl, h0⟩
  | cons l ls ih =>
    intro st c h0 hname
    have hstep : processLines st (l :: ls)
        = processLines (receive_line st l).1 ls := rfl
    have hnl : ∀ tok ∈ splitOnChar ',' (strip l), tokenName? tok ≠ some c :=
      hname l (List.mem_cons_self l ls)
    have hcur : (receive_line st l).1.current_record.get? c = some 0 := by
      unfold receive_line process_line_tokens
      split
      · rename_i st1 heq
        rw [(process_fields_current _ st false false c hnl).2 st1 heq]
        exact h0
      · rename_i st1 p a heq
        rw [finish_line_current,
          (process_fields_current _ st false false c hnl).1 st1 p a heq]
        exact h0
    have hrec : (receive_line st l).1.data_records = st.data_records := by
      unfold receive_line process_line_tokens
      split
      · rename_i st1 heq
        exact ((process_fields_frame _ st false false).2 st1 heq).1
      · rename_i st1 p a heq
        have hfr := (process_fields_frame _ st false false).1 st1 p a heq
        have hz : (0 : ℚ) ∈ st1.current_record.values := by
          apply Record.get?_mem_values st1.current_record c
          rw [(process_fields_current _ st false false c hnl).1 st1 p a heq]
          exact h0
        rw [(finish_line_zero st1 p a hz).1, hfr.1]
    have hrest : ∀ l' ∈ ls, ∀ tok ∈ splitOnChar ',' (strip l'),
        tokenName? tok ≠ some c := by
      intro l' hl'
      exact hname l' (List.mem_cons_of_mem l hl')
    obtain ⟨ha, hb⟩ := ih (receive_line st l).1 c hcur hrest
    rw [hstep]
    exact ⟨ha.trans hrec, hb⟩

/-- Claim C5: if any current-record value is exactly 0 at the end of a
line, no record is emitted for that line and set group flags stay set; and
a channel whose value stays 0 (never written by any line) blocks emission
across every subsequent line. -/
theorem zero_value_blocks_emission :
    (∀ (st : SerialPlotterWindow) (line : Str),
      (0 : ℚ) ∈ (receive_line st line).1.current_record.values →
      (receive_line st line).1.data_records = st.data_records ∧
      (st.ppg_updated = true → (receive_line st line).1.ppg_updated = true) ∧
      (st.acc_updated = true → (receive_line st line).1.acc_updated = true)) ∧
    (∀ (st : SerialPlotterWindow) (c : Str) (ls : List Str),
      st.current_record.get? c = some 0 →
      (∀ l ∈ ls, ∀ tok ∈ splitOnChar ',' (strip l),
        tokenName? tok ≠ some c) →
      (processLines st ls).data_records = st.data_records) := by
  constructor
  · intro st line h0
    unfold receive_line process_line_tokens at h0 ⊢
    cases hpf : process_fields st false false (splitOnChar ',' (strip line)) with
    | error st1 =>
      have hfr := (process_fields_frame _ st false false).2 st1 hpf
      refine ⟨hfr.1, ?_, ?_⟩
      · intro h
        show st1.ppg_updated = true
        rw [hfr.2.2.1, h]
      · intro h
        show st1.acc_updated = true
        rw [hfr.2.2.2, h]
    | ok r =>
      obtain ⟨st1, p, a⟩ := r
      rw [hpf] at h0
      have hfr := (process_fields_frame _ st false false).1 st1 p a hpf
      have hz : (0 : ℚ) ∈ st1.current_record.values := by
        have h0' : (0 : ℚ) ∈ (finish_line st1 p a).current_record.values := h0
        rw [finish_line_current] at h0'
        exact h0'
      have hfl := finish_line_zero st1 p a hz
      refine ⟨?_, ?_, ?_⟩
      · show (finish_line st1 p a).data_records = st.data_records
        rw [hfl.1, hfr.1]
      · intro h
        show (finish_line st1 p a).ppg_updated = true
        rw [hfl.2.2.1, hfr.2.2.1, h]
        simp
      · intro h
        show (finish_line st1 p a).acc_updated = true
        rw [hfl.2.2.2, hfr.2.2.2, h]
        simp
  · intro st c ls h0 hname
    exact (processLines_zero_blocked ls st c h0 hname).1

theorem zero_value_blocks_emission_witness :
    (receive_line appState ['X',':','5']).1.data_records
        = appState.data_records ∧
    (processLines appState [['X',':','5']]).data_records
        = appState.data_records :=
  ⟨(zero_value_blocks_emission.1 appState ['X',':','5'] (by decide)).1,
   zero_value_blocks_emission.2 appState ['C'] [['X',':','5']]
     (by decide) (by decide)⟩

lemma process_fields_append_error (pre : List Str) :
    ∀ (st : SerialPlotterWindow) (p a : Bool) (st1 : SerialPlotterWindow)
      (p1 a1 : Bool) (t : Str) (rest : List Str),
      process_fields st p a pre = .ok (st1, p1, a1) →
      process_field st1 p1 a1 t = .error () →
      process_fields st p a (pre ++ t :: rest) = .error st1 := by
  induction pre with
  | nil =>
    intro st p a st1 p1 a1 t rest h1 h2
    simp only [process_fields, Except.ok.injEq, Prod.mk.injEq] at h1
    obtain ⟨hs, hp, ha⟩ := h1
    subst hs; subst hp; subst ha
    simp only [List.nil_append, process_fields]
    rw [h2]
  | cons tok pre ih =>
    intro st p a st1 p1 a1 t rest h1 h2
    rw [List.cons_append]
    unfold process_fields at h1 ⊢
    cases hq : process_field st p a tok with
    | error e =>
      rw [hq] at h1
      obtain ⟨⟩ := e
      simp at h1
    | ok r =>
      obtain ⟨s2, p2, a2⟩ := r
      rw [hq] at h1
      exact ih s2 p2 a2 st1 p1 a1 t rest h1 h2

/-- Claim C9: when a malformed token follows well-formed fields, the line
aborts with the state reached after the well-formed fields (which have
been written into the current record and pushed into buffers), and the
group flags, the session store and the sample counter are exactly as they
were before the line — the flag update and the emission check never run. -/
theorem malformed_token_skips_flags_and_emission
    (st st1 : SerialPlotterWindow) (p1 a1 : Bool)
    (pre : List Str) (t : Str) (rest : List Str)
    (hpre : process_fields st false false pre = .ok (st1, p1, a1))
    (hbad : process_field st1 p1 a1 t = .error ()) :
    process_line_tokens st (pre ++ t :: rest) = (st1, true) ∧
    st1.ppg_updated = st.ppg_updated ∧
    st1.acc_updated = st.acc_updated ∧
    st1.data_records = st.data_records ∧
    st1.sample_count = st.sample_count := by
  have herr :=
    process_fields_append_error pre st false false st1 p1 a1 t rest hpre hbad
  have hfr := (process_fields_frame pre st false false).1 st1 p1 a1 hpre
  refine ⟨?_, hfr.2.2.1, hfr.2.2.2, hfr.1, hfr.2.1⟩
  unfold process_line_tokens
  rw [herr]

/-- State, local group flags after parsing the single well-formed field
`"R:2"` from the app start state (used to instantiate the malformed-line
theorems). -/
def mid_state : SerialPlotterWindow × Bool × Bool :=
  match process_fields appState false false [['R',':','2']] with
  | .ok r => r
  | .error s => (s, false, false)

theorem malformed_token_skips_flags_and_emission_witness :
    process_line_tokens appState
        [['R',':','2'], ['I','R',':','a','b']] = (mid_state.1, true) ∧
    mid_state.1.ppg_updated = appState.ppg_updated ∧
    mid_state.1.acc_updated = appState.acc_updated ∧
    mid_state.1.data_records = appState.data_records ∧
    mid_state.1.sample_count = appState.sample_count :=
  malformed_token_skips_flags_and_emission appState mid_state.1
    mid_state.2.1 mid_state.2.2 [['R',':','2']] ['I','R',':','a','b'] []
    (by rfl) (by rfl)

/-- Claim C2 counterexample: the line `"R:2,IR:ab"` contains a malformed
token, a parse error is reported, and yet the well-formed field `R:2` HAS
been applied to the current record (its value changes from 0 to 2), so the
line's fields are not entirely discarded. -/
theorem malformed_line_partial_application_cex :
    appState.current_record.get? ['R'] = some 0 ∧
    (receive_line appState ['R',':','2',',','I','R',':','a','b']).2 = true ∧
    (receive_line appState
        ['R',':','2',',','I','R',':','a','b']).1.current_record.get? ['R']
      = some 2 :=
  ⟨by decide, by decide, by decide⟩

/-- Claim C2 (amended): for a line containing a malformed token (a
colon-present field whose value `float()` rejects, or an index error), a
parse error is reported and processing continues with the next line; the
fields preceding the malformed token have already been applied to the
current record and the buffers (the resulting state is exactly the state
reached after them), while nothing from the malformed token onward is
applied and the group flags, session store and sample counter are left
exactly as before the line; a line whose bytes fail to decode is discarded
entirely with an error. -/
theorem malformed_line_discards_rest
    (st st1 : SerialPlotterWindow) (p1 a1 : Bool) (line : Str)
    (pre : List Str) (t : Str) (rest : List Str)
    (hsplit : splitOnChar ',' (strip line) = pre ++ t :: rest)
    (hpre : process_fields st false false pre = .ok (st1, p1, a1))
    (hbad : process_field st1 p1 a1 t = .error ()) :
    receive_line st line = (st1, true) ∧
    st1.ppg_updated = st.ppg_updated ∧
    st1.acc_updated = st.acc_updated ∧
    st1.data_records = st.data_records ∧
    st1.sample_count = st.sample_count ∧
    (∀ ls, processLines st (line :: ls) = processLines st1 ls) ∧
    receive_raw st none = (st, true) := by
  have herr :=
    process_fields_append_error pre st false false st1 p1 a1 t rest hpre hbad
  have hfr := (process_fields_frame pre st false false).1 st1 p1 a1 hpre
  have hline : receive_line st line = (st1, true) := by
    unfold receive_line process_line_tokens
    rw [hsplit, herr]
  refine ⟨hline, hfr.2.2.1, hfr.2.2.2, hfr.1, hfr.2.1, ?_, rfl⟩
  intro ls
  show processLines (receive_line st line).1 ls = processLines st1 ls
  rw [hline]

theorem malformed_line_discards_rest_witness :
    receive_line appState ['R',':','2',',','I','R',':','a','b']
        = (mid_state.1, true) ∧
    mid_state.1.ppg_updated = appState.ppg_updated ∧
    mid_state.1.acc_updated = appState.acc_updated ∧
    mid_state.1.data_records = appState.data_records ∧
    mid_state.1.sample_count = appState.sample_count ∧
    (∀ ls, processLines appState
        (['R',':','2',',','I','R',':','a','b'] :: ls)
      = processLines mid_state.1 ls) ∧
    receive_raw appState none = (appState, true) :=
  malformed_line_discards_rest appState mid_state.1 mid_state.2.1
    mid_state.2.2 ['R',':','2',',','I','R',':','a','b']
    [['R',':','2']] ['I','R',':','a','b'] [] (by rfl) (by rfl) (by rfl)

lemma goodRec_row (r : Record) (hg : GoodRec r) :
    record_row r = some (seven_vals r) := by
  obtain ⟨c, hc⟩ := Option.isSome_iff_exists.mp (hg ['C'] (by decide))
  obtain ⟨rr, hr⟩ := Option.isSome_iff_exists.mp (hg ['R'] (by decide))
  obtain ⟨ir, hir⟩ := Option.isSome_iff_exists.mp (hg ['I','R'] (by decide))
  obtain ⟨g, hgg⟩ := Option.isSome_iff_exists.mp (hg ['G'] (by decide))
  obtain ⟨x, hx⟩ := Option.isSome_iff_exists.mp (hg ['X'] (by decide))
  obtain ⟨y, hy⟩ := Option.isSome_iff_exists.mp (hg ['Y'] (by decide))
  obtain ⟨z, hz⟩ := Option.isSome_iff_exists.mp (hg ['Z'] (by decide))
  unfold record_row seven_vals
  rw [hc, hr, hir, hgg, hx, hy, hz]
  rfl

lemma receive_line_good (st : SerialPlotterWindow) (line : Str)
    (hg : GoodState st) : GoodState (receive_line st line).1 := by
  unfold receive_line process_line_tokens
  cases hpf : process_fields st false false (splitOnChar ',' (strip line)) with
  | error st1 =>
    refine ⟨(process_fields_good _ st false false hg.1).2 st1 hpf, ?_⟩
    have hfr := (process_fields_frame _ st false false).2 st1 hpf
    show ∀ p ∈ st1.data_records, GoodRec p.2
    rw [hfr.1]
    exact hg.2
  | ok r =>
    obtain ⟨st1, p, a⟩ := r
    have hcur := (process_fields_good _ st false false hg.1).1 st1 p a hpf
    have hfr := (process_fields_frame _ st false false).1 st1 p a hpf
    constructor
    · show GoodRec (finish_line st1 p a).current_record
      rw [finish_line_current]
      exact hcur
    · show ∀ q ∈ (finish_line st1 p a).data_records, GoodRec q.2
      rcases finish_line_step st1 p a with ⟨h1, -⟩ | ⟨h1, -⟩
      · rw [h1, hfr.1]
        exact hg.2
      · rw [h1]
        intro q hq
        rcases List.mem_append.1 hq with hmem | hmem
        · rw [hfr.1] at hmem
          exact hg.2 q hmem
        · have : q = (st1.sample_count + 1, st1.current_record) := by
            simpa using hmem
          rw [this]
          exact hcur

lemma processLines_good (ls : List Str) :
    ∀ st : SerialPlotterWindow, GoodState st →
      GoodState (processLines st ls) := by
  induction ls with
  | nil => intro st hg; exact hg
  | cons l ls ih =>
    intro st hg
    exact ih (receive_line st l).1 (receive_line_good st l hg)

lemma allSome_map_rows (rs : List (Nat × Record))
    (h : ∀ p ∈ rs, record_row p.2 = some (seven_vals p.2)) :
    allSome (rs.map (fun p => record_row p.2))
      = some (rs.map (fun p => seven_vals p.2)) := by
  induction rs with
  | nil => rfl
  | cons p rs ih =>
    rw [List.map_cons, h p (List.mem_cons_self p rs)]
    show (allSome (rs.map (fun p => record_row p.2))).map _ = _
    rw [ih (fun q hq => h q (List.mem_cons_of_mem p hq))]
    rfl

/-- Claim C6: exporting a non-empty session store writes one header row
with the seven channel names in the fixed order C,R,IR,G,X,Y,Z, then
exactly one row per stored record in ascending sample-index order, each
row holding that record's seven values in the same fixed column order. -/
theorem export_writes_fixed_columns (ls : List Str)
    (hne : (processLines appState ls).data_records ≠ []) :
    export_data (processLines appState ls)
        = ExportResult.ok channel_names
            ((processLines appState ls).data_records.map
              (fun p => seven_vals p.2)) ∧
    ((processLines appState ls).data_records.map
        (fun p => seven_vals p.2)).length
      = (processLines appState ls).data_records.length ∧
    (∀ p ∈ (processLines appState ls).data_records,
      record_row p.2 = some (seven_vals p.2) ∧ (seven_vals p.2).length = 7) ∧
    ((processLines appState ls).data_records.map Prod.fst
        = List.range' 1 (processLines appState ls).sample_count) := by
  have hgood := processLines_good ls appState
    ⟨by unfold GoodRec; decide, fun p hp => absurd hp (by simp [appState])⟩
  have hrows : ∀ p ∈ (processLines appState ls).data_records,
      record_row p.2 = some (seven_vals p.2) :=
    fun p hp => goodRec_row p.2 (hgood.2 p hp)
  refine ⟨?_, by simp, fun p hp => ⟨hrows p hp, by simp [seven_vals]⟩,
    (processLines_invariant ls appState (by simp [appState])).1⟩
  unfold export_data
  rw [if_pos (by simpa [List.length_pos] using hne), allSome_map_rows _ hrows]

theorem export_writes_fixed_columns_witness :
    export_data (processLines appState
        [['C',':','1',',','R',':','2',',','I','R',':','3',',','G',':','4'],
         ['X',':','5',',','Y',':','6',',','Z',':','7']])
      = ExportResult.ok channel_names [[1, 2, 3, 4, 5, 6, 7]] :=
  (export_writes_fixed_columns
      [['C',':','1',',','R',':','2',',','I','R',':','3',',','G',':','4'],
       ['X',':','5',',','Y',':','6',',','Z',':','7']] (by decide)).1.trans
    (by decide)

lemma ppg_sub_channels : ∀ x ∈ ppg_channels, x ∈ channel_names := by decide

lemma acc_sub_channels : ∀ x ∈ acc_channels, x ∈ channel_names := by decide

lemma sensor_map_none_of_unknown (name : Str) (h : name ∉ channel_names) :
    sensor_map name = none := by
  simp only [channel_names, List.mem_cons, List.not_mem_nil, or_false,
    not_or] at h
  obtain ⟨h1, h2, h3, h4, h5, h6, h7⟩ := h
  simp [sensor_map, h1, h2, h3, h4, h5, h6, h7]

/-- Claim C10: a well-formed field whose name is outside the seven known
channels is still stored into the current record under that name (while
skipped for flag classification and buffer routing); the key persists
under later updates, a 0 value under it blocks emission, emitted snapshots
are full copies of the current record (so they carry the extra key), and
the export row of a record ignores the extra key. -/
theorem unknown_channel_stored (st : SerialPlotterWindow) (p a : Bool)
    (tok name vs : Str) (v : ℚ)
    (hcolon : ':' ∈ tok)
    (hname : strip ((splitOnChar ':' tok).headD []) = name)
    (hvs : (splitOnChar ':' tok).get? 1 = some vs)
    (hval : pyFloat vs = some v)
    (hunk : name ∉ channel_names) :
    process_field st p a tok
        = .ok ({ st with
            current_record := st.current_record.set name v }, p, a) ∧
    (st.current_record.set name v).get? name = some v ∧
    (∀ (r : Record) (k : Str) (w : ℚ),
      (r.get? name).isSome = true → ((r.set k w).get? name).isSome = true) ∧
    (∀ (st2 : SerialPlotterWindow) (p2 a2 : Bool),
      st2.current_record.get? name = some 0 →
      (finish_line st2 p2 a2).data_records = st2.data_records) ∧
    (∀ (st2 : SerialPlotterWindow) (p2 a2 : Bool) (e : Nat × Record),
      e ∈ (finish_line st2 p2 a2).data_records →
      e ∈ st2.data_records ∨ e.2 = st2.current_record) ∧
    (∀ (r : Record) (w : ℚ), record_row (r.set name w) = record_row r) := by
  have hppg : name ∉ ppg_channels := fun hm => hunk (ppg_sub_channels name hm)
  have hacc : name ∉ acc_channels := fun hm => hunk (acc_sub_channels name hm)
  refine ⟨?_, Record.get?_set_self st.current_record name v, ?_, ?_, ?_, ?_⟩
  · simp only [process_field, hvs, hval, hname]
    rw [if_pos hcolon, if_neg hppg, if_neg hppg, if_neg hacc,
      sensor_map_none_of_unknown name hunk]
  · intro r k w hsome
    by_cases hkn : k = name
    · subst hkn
      rw [Record.get?_set_self]
      rfl
    · rw [Record.get?_set_other r k w name hkn]
      exact hsome
  · intro st2 p2 a2 h0
    exact (finish_line_zero st2 p2 a2
      (Record.get?_mem_values st2.current_record name 0 h0)).1
  · intro st2 p2 a2 e he
    rcases finish_line_step st2 p2 a2 with ⟨h1, -⟩ | ⟨h1, -⟩
    · rw [h1] at he
      exact Or.inl he
    · rw [h1] at he
      rcases List.mem_append.1 he with hmem | hmem
      · exact Or.inl hmem
      · right
        have : e = (st2.sample_count + 1, st2.current_record) := by
          simpa using hmem
        rw [this]
  · intro r w
    have hne : ∀ k ∈ channel_names, name ≠ k := by
      intro k hk hcontra
      exact hunk (hcontra ▸ hk)
    unfold record_row
    rw [Record.get?_set_other r name w ['C'] (hne ['C'] (by decide)),
      Record.get?_set_other r name w ['R'] (hne ['R'] (by decide)),
      Record.get?_set_other r name w ['I','R'] (hne ['I','R'] (by decide)),
      Record.get?_set_other r name w ['G'] (hne ['G'] (by decide)),
      Record.get?_set_other r name w ['X'] (hne ['X'] (by decide)),
      Record.get?_set_other r name w ['Y'] (hne ['Y'] (by decide)),
      Record.get?_set_other r name w ['Z'] (hne ['Z'] (by decide))]

theorem unknown_channel_stored_witness :
    process_field appState false false ['H',':','5']
        = .ok ({ appState with
            current_record := appState.current_record.set ['H'] 5 },
          false, false) ∧
    (appState.current_record.set ['H'] 5).get? ['H'] = some 5 ∧
    (∀ (r : Record) (k : Str) (w : ℚ),
      (r.get? ['H']).isSome = true →
      ((r.set k w).get? ['H']).isSome = true) ∧
    (∀ (st2 : SerialPlotterWindow) (p2 a2 : Bool),
      st2.current_record.get? ['H'] = some 0 →
      (finish_line st2 p2 a2).data_records = st2.data_records) ∧
    (∀ (st2 : SerialPlotterWindow) (p2 a2 : Bool) (e : Nat × Record),
      e ∈ (finish_line st2 p2 a2).data_records →
      e ∈ st2.data_records ∨ e.2 = st2.current_record) ∧
    (∀ (r : Record) (w : ℚ),
      record_row (r.set ['H'] w) = record_row r) :=
  unknown_channel_stored appState false false ['H',':','5'] ['H'] ['5'] 5
    (by decide) (by decide) (by decide) (by decide) (by decide)

example : pyFloat ['1'] = some 1 := by decide
example : pyFloat ['a','b','c'] = none := by decide
example : pyFloat [' ', '2', '.', '5'] = some (5/2) := by
  simp [pyFloat, pyFloatMag, strip, digitsVal, digToNat, isSpaceCh, isDigitCh]
  norm_num
example : pyFloat ['-', '3'] = some (-3) := by decide
example : pyFloat [] = none := by decide
example : splitOnChar ',' ['a', ',', ',', 'b'] = [['a'], [], ['b']] := by decide
example :
    ((CircularBuffer.init 2).push 1 |>.push 2 |>.push 3).get_data = [2, 3] := by
  decide

example :
    (processLines appState
      [['C',':','1',',','R',':','2',',','I','R',':','3',',','G',':','4']]).data_records
      = [] := by decide

example :
    (processLines appState
      [['C',':','1',',','R',':','2',',','I','R',':','3',',','G',':','4'],
       ['X',':','5',',','Y',':','6',',','Z',':','7']]).data_records
      = [(1, [(['C'], 1), (['R'], 2), (['I','R'], 3), (['G'], 4),
              (['X'], 5), (['Y'], 6), (['Z'], 7)])] := by decide

example : (receive_line appState ['R',':','2',',','I','R',':','a','b']).2 = true := by decide
example :
    ((receive_line appState ['R',':','2',',','I','R',':','a','b']).1.current_record.get? ['R'])
      = some 2 := by decide
